import Mathlib

/-!
Verification development for a two-script scraping pipeline:
`extract_course_links.py` (paginated link harvester with a file-backed
dedup store) and `scrape_courses_to_sheet2.py` (per-URL field-resolution
engine that assembles fixed-schema records).

The Python code is shallowly embedded: file contents are lists of lines
(each line modelled without its trailing newline), Python sets are
`Finset String`, Python floats are idealized as rationals, and the small
regular expressions of the source are implemented as executable scanners
over `List Char` (ASCII word characters, as all inputs of interest are
ASCII).  Fallible code returns `Option`.
-/

/-- The whitespace class of Python `str.strip` / regex `\s` (ASCII part). -/
def pySpace (c : Char) : Bool :=
  c == ' ' || c == '\t' || c == '\n' || c == '\r' || c == '\x0b' || c == '\x0c'

/-- Python `str.strip()` on the character list. -/
def pyStripL (cs : List Char) : List Char :=
  ((cs.dropWhile pySpace).reverse.dropWhile pySpace).reverse

/-- Python `str.strip()`. -/
def pyStrip (s : String) : String :=
  String.mk (pyStripL s.data)

/-- Replace every maximal whitespace run by a single blank, as in
`re.sub(r"\s+", " ", t)`.  The boolean flag records whether the previous
character was whitespace (so the run emits only one blank). -/
def collapseWsGo : Bool → List Char → List Char
  | _, [] => []
  | prevWs, c :: cs =>
    if pySpace c then
      if prevWs then collapseWsGo true cs else ' ' :: collapseWsGo true cs
    else c :: collapseWsGo false cs

/-- `clean_text` of the scraper: collapse whitespace runs, then strip. -/
def clean_text (s : String) : String :=
  String.mk (pyStripL (collapseWsGo false s.data))

/-- Lower-case a string (ASCII), modelling `re.I` matching. -/
def lowerL (cs : List Char) : List Char := cs.map Char.toLower

/-- Regex word character `\w` (ASCII part): letter, digit or underscore. -/
def isWordChar (c : Char) : Bool := c.isAlphanum || c == '_'

/-- Whether position `i` of `cs` carries a word character
(out-of-range positions count as non-word). -/
def isWordAt (cs : List Char) (i : Nat) : Bool :=
  match cs.get? i with
  | some c => isWordChar c
  | none => false

/-- Regex word boundary `\b` at position `i`: the character before `i` and
the character at `i` lie on different sides of the word/non-word divide. -/
def wordBoundary (cs : List Char) (i : Nat) : Bool :=
  (if i == 0 then false else isWordAt cs (i - 1)) != isWordAt cs i

/-- The pattern `pat` occurs verbatim in `cs` starting at index `i`. -/
def matchAt (cs pat : List Char) (i : Nat) : Bool :=
  decide ((cs.drop i).take pat.length = pat)

/-- Occurrence of `pat` at `i` with `\b` on both sides (the patterns this
file uses all begin and end with word characters). -/
def boundaryMatchAt (cs pat : List Char) (i : Nat) : Bool :=
  matchAt cs pat i && wordBoundary cs i && wordBoundary cs (i + pat.length)

/-- First index `≥ start` satisfying `p`, examining at most `fuel`
positions. -/
def scanIdx (p : Nat → Bool) : Nat → Nat → Option Nat
  | _, 0 => none
  | i, fuel + 1 => if p i then some i else scanIdx p (i + 1) fuel

/-- First position of a `\b pat \b` occurrence in `cs`
(`re.search` with word boundaries). -/
def findBoundaryPat (cs pat : List Char) : Option Nat :=
  scanIdx (fun i => boundaryMatchAt cs pat i) 0 (cs.length + 1)

/-- First position of a plain substring occurrence of `pat` in `cs`. -/
def findSubstring (cs pat : List Char) : Option Nat :=
  scanIdx (fun i => matchAt cs pat i) 0 (cs.length + 1)

/-- The alternatives of the duration regex
`\b(week|weeks|hour|hours|hr|hrs|minute|minutes|min)\b`. -/
def DURATION_UNITS : List (List Char) :=
  ["week".data, "weeks".data, "hour".data, "hours".data, "hr".data,
   "hrs".data, "minute".data, "minutes".data, "min".data]

/-- `is_duration` of the scraper: a case-insensitive search for a
duration-unit word with word boundaries succeeds somewhere in `s`. -/
def is_duration (s : String) : Bool :=
  DURATION_UNITS.any (fun w => (findBoundaryPat (lowerL s.data) w).isSome)

/-- `is_level` of the scraper:
`\b(Beginner|Intermediate|Advanced|All Levels)\b`, case-insensitive. -/
def is_level (s : String) : Bool :=
  ["beginner".data, "intermediate".data, "advanced".data,
   "all levels".data].any
    (fun w => (findBoundaryPat (lowerL s.data) w).isSome)

/-! ## Link harvester (`extract_course_links.py`) -/

/-- Safety cap on pages per category (`MAX_PAGES = 500`). -/
def MAX_PAGES : Nat := 500

/-- Python `str.startswith`. -/
def pyStartsWith (s pre : String) : Bool :=
  decide (s.data.take pre.data.length = pre.data)

/-- `load_already_written`: keep only lines whose stripped form starts
with `http`, as a set.  (The source strips each line and filters on the
stripped text.) -/
def load_already_written (file : List String) : Finset String :=
  (((file.map pyStrip).filter (fun l => pyStartsWith l "http"))).toFinset

/-- Code-point lexicographic comparison of character lists (the string
order used by Python `sorted`). -/
def lexLe : List Char → List Char → Bool
  | [], _ => true
  | _ :: _, [] => false
  | a :: as, b :: bs =>
    if a.toNat < b.toNat then true
    else if b.toNat < a.toNat then false
    else lexLe as bs

/-- Code-point lexicographic order on strings. -/
def strLe (a b : String) : Bool := lexLe a.data b.data

/-- Insertion into a sorted list, used to model Python `sorted`. -/
def insertSorted (x : String) : List String → List String
  | [] => [x]
  | y :: ys => if strLe x y then x :: y :: ys else y :: insertSorted x ys

/-- Python `sorted(links)`: insertion sort of the enumeration of the
link set. -/
def sortLinks : List String → List String
  | [] => []
  | x :: xs => insertSorted x (sortLinks xs)

/-- Outcome of one `append_links` call: the lines written to the file (in
order), the updated in-memory `already_written` set, and the returned
`new_count`. -/
structure AppendResult where
  written : List String
  already : Finset String
  count : Nat

/-- The loop body of `append_links`: for each link in order, skip it when
it is already in the set, otherwise write it and add it to the set. -/
def append_links_go : List String → Finset String → AppendResult
  | [], aw => ⟨[], aw, 0⟩
  | l :: ls, aw =>
    if l ∈ aw then append_links_go ls aw
    else
      let r := append_links_go ls (insert l aw)
      ⟨l :: r.written, r.already, r.count + 1⟩

/-- `append_links(path, links, already_written)`: iterate over
`sorted(links)`. -/
def append_links (links : List String) (aw : Finset String) : AppendResult :=
  append_links_go (sortLinks links) aw

/-- One harvester run over a fixed page sequence: the dedup set is loaded
once from the file, then every page streams its links through
`append_links`, appending the written lines to the file. -/
def run_go : List (List String) → List String → Finset String → Nat →
    List String × Finset String × Nat
  | [], file, aw, n => (file, aw, n)
  | page :: rest, file, aw, n =>
    let r := append_links page aw
    run_go rest (file ++ r.written) r.already (n + r.count)

/-- A harvester run against a stored file: load, then stream all pages;
returns the final file and the total number of newly written lines. -/
def harvester_run (file : List String) (pages : List (List String)) :
    List String × Nat :=
  let st := run_go pages file (load_already_written file) 0
  (st.1, st.2.2)

/-- The union of the link sets of all pages of a run. -/
def pagesUnion : List (List String) → Finset String
  | [] => ∅
  | p :: rest => p.toFinset ∪ pagesUnion rest

/-- A link as produced by the harvester: a full URL, already stripped. -/
def goodLink (l : String) : Prop :=
  pyStartsWith l "http" = true ∧ pyStrip l = l

/-- All links of all pages are harvester-normalized URLs. -/
def goodPages (pages : List (List String)) : Prop :=
  ∀ p ∈ pages, ∀ l ∈ p, goodLink l

instance (l : String) : Decidable (goodLink l) := by
  unfold goodLink; infer_instance

instance (pages : List (List String)) : Decidable (goodPages pages) := by
  unfold goodPages; infer_instance

/-! ### Pagination (`scrape_category`) -/

/-- The environment a category page sequence presents to the loop of
`scrape_category`: the links extracted from the page shown at a given
page index, whether an eligible (present, not disabled) next control is
found there, and whether clicking it succeeds. -/
structure PageEnv where
  links : Nat → List String
  nextFound : Nat → Bool
  clickOk : Nat → Bool

/-- How the page loop of `scrape_category` ended. -/
inductive StopReason
  | maxPages
  | noNext
  | clickFailed
deriving DecidableEq

/-- Final state of one `scrape_category` call. -/
structure ScrapeResult where
  pagesVisited : Nat
  reason : StopReason
  file : List String
  already : Finset String
  totalNew : Nat

/-- The `while page_index <= MAX_PAGES` loop of `scrape_category`,
written with the structural fuel `MAX_PAGES + 1 - page_index` (zero fuel
is exactly the loop condition failing).  Each iteration extracts the
page links, streams them through `append_links`, then looks for a next
control and clicks it; the two `break`s keep everything written so far. -/
def scrape_go (env : PageEnv) :
    Nat → Nat → Finset String → List String → Nat → ScrapeResult
  | 0, pageIndex, aw, file, total =>
    ⟨pageIndex - 1, .maxPages, file, aw, total⟩
  | fuel + 1, pageIndex, aw, file, total =>
    let r := append_links (env.links pageIndex) aw
    let file2 := file ++ r.written
    let total2 := total + r.count
    if env.nextFound pageIndex = false then
      ⟨pageIndex, .noNext, file2, r.already, total2⟩
    else if env.clickOk pageIndex = false then
      ⟨pageIndex, .clickFailed, file2, r.already, total2⟩
    else scrape_go env fuel (pageIndex + 1) r.already file2 total2

/-- `scrape_category`: run the page loop from `page_index = 1`. -/
def scrape_category (env : PageEnv) (aw : Finset String)
    (file : List String) : ScrapeResult :=
  scrape_go env MAX_PAGES 1 aw file 0

/-- A concrete category whose next control is always present, eligible
and clickable — the worst case for the pagination safety bound. -/
def demoEnv : PageEnv :=
  ⟨fun _ => ["https://www.coursera.org/learn/a"], fun _ => true, fun _ => true⟩

/-! ## Detail-page scraper (`scrape_courses_to_sheet2.py`) -/

/-- `load_urls`: keep the stripped text of every line that is non-blank
after stripping and whose raw text does not start with a `#`. -/
def load_urls (file : List String) : List String :=
  (file.filter
    (fun line => !(pyStrip line == "") && !(pyStartsWith line "#"))).map pyStrip

/-! ### Numeric regex machinery (`extract_numbers` / `first_number`) -/

/-- Length of the maximal run of characters satisfying `q` from index
`i` on. -/
def runLen (q : Char → Bool) (cs : List Char) (i : Nat) : Nat :=
  ((cs.drop i).takeWhile q).length

/-- `n-1, n-2, ..., 0`: the greedy backtracking order of a starred
regex component. -/
def revRange (n : Nat) : List Nat := (List.range n).reverse

/-- The character class `[\d,]`. -/
def digitOrComma (c : Char) : Bool := c.isDigit || c == ','

/-- Is the character at position `i` a digit? -/
def digitAt (cs : List Char) (i : Nat) : Bool :=
  match cs.get? i with
  | some c => c.isDigit
  | none => false

/-- End position of a match of `\d[\d,]*\.?\d*\b` beginning at `i`
(the first digit is at `i`), following the backtracking order of a
greedy regex engine: longest `[\d,]*` first, then with-dot before
without-dot, then longest trailing `\d*`; the first combination whose
end sits on a word boundary wins. -/
def numMatchEnd (cs : List Char) (i : Nat) : Option Nat :=
  (revRange (runLen digitOrComma cs (i + 1) + 1)).findSome? fun k =>
    let pos := i + 1 + k
    let withDot : Option Nat :=
      if cs.get? pos == some '.' then
        (revRange (runLen Char.isDigit cs (pos + 1) + 1)).findSome? fun m =>
          let e := pos + 1 + m
          if wordBoundary cs e then some e else none
      else none
    match withDot with
    | some e => some e
    | none =>
      (revRange (runLen Char.isDigit cs pos + 1)).findSome? fun m =>
        let e := pos + m
        if wordBoundary cs e then some e else none

/-- Start of the first match of `\b\d[\d,]*\.?\d*\b` in `cs`. -/
def firstNumStart (cs : List Char) : Option Nat :=
  scanIdx
    (fun i => wordBoundary cs i && digitAt cs i && (numMatchEnd cs i).isSome)
    0 (cs.length + 1)

/-- Value of a digit string. -/
def digitsVal (ds : List Char) : Nat :=
  ds.foldl (fun a c => a * 10 + (c.toNat - 48)) 0

/-- An exact nonnegative decimal `mant / 10 ^ fracLen`, the idealization
of the Python floats this code produces (every number the source parses
is a short decimal literal, represented exactly).  Canonical form:
trailing zero fractional digits are stripped on construction, so two
equal decimals are structurally equal. -/
structure DecVal where
  mant : Nat
  fracLen : Nat
deriving DecidableEq

/-- The rational value of a decimal. -/
def DecVal.toQ (d : DecVal) : ℚ := (d.mant : ℚ) / 10 ^ d.fracLen

/-- Exact scaling by a natural number (used for
`REQUEST_DELAY_SEC * attempt`, where the delay is integral). -/
def DecVal.scale (d : DecVal) (n : Nat) : DecVal := ⟨d.mant * n, d.fracLen⟩

/-- Drop trailing `0` digits of a fractional part. -/
def stripTrailingZeros (fp : List Char) : List Char :=
  (fp.reverse.dropWhile (fun c => c == '0')).reverse

/-- Python `float` of a plain decimal literal (digits, at most one
dot). -/
def parseDec (ds : List Char) : DecVal :=
  let ip := ds.takeWhile (fun c => !(c == '.'))
  let fp := stripTrailingZeros ((ds.dropWhile (fun c => !(c == '.'))).drop 1)
  ⟨digitsVal ip * 10 ^ fp.length + digitsVal fp, fp.length⟩

/-- `first_number`: the first `\b\d[\d,]*\.?\d*\b` match, commas
removed, read as a number (`float(x.replace(",", ""))`). -/
def first_number (s : String) : Option DecVal :=
  let cs := s.data
  match firstNumStart cs with
  | none => none
  | some i =>
    match numMatchEnd cs i with
    | none => none
    | some e =>
      some (parseDec (((cs.drop i).take (e - i)).filter (fun c => !(c == ','))))

/-! ### Rating resolution -/

/-- Match of `\b(\d\.\d)\b` at position `i` (the optional
`(?:\s*(?:stars?|out of 5))?` suffix of the source regex never
constrains the match, being optional). -/
def ratingDecimalAt (cs : List Char) (i : Nat) : Bool :=
  wordBoundary cs i && digitAt cs i && (cs.get? (i + 1) == some '.') &&
    digitAt cs (i + 2) && wordBoundary cs (i + 3)

/-- First `\b\d\.\d\b` match in `s`, as a number. -/
def findRatingDecimal (s : String) : Option DecVal :=
  let cs := s.data
  match scanIdx (fun i => ratingDecimalAt cs i) 0 (cs.length + 1) with
  | none => none
  | some i => some (parseDec ((cs.drop i).take 3))

/-- The rating field: a number or the sentinel `"N/A"`. -/
inductive RatingRes
  | num (q : DecVal)
  | na
deriving DecidableEq

/-- Rating resolution from the matched locator text: guarded by
`rating_txt and not is_duration(rating_txt)`; first the `\b\d\.\d\b`
pattern, else `first_number` — but only when the text does not contain a
duration unit (the source repeats the unit regex of `is_duration`
inline at that point). -/
def rating_from_text (txt : String) : RatingRes :=
  if txt ≠ "" ∧ is_duration txt = false then
    match findRatingDecimal txt with
    | some q => .num q
    | none =>
      if is_duration txt = false then
        match first_number txt with
        | some q => .num q
        | none => .na
      else .na
  else .na

/-! ### Time-to-complete resolution -/

/-- The "Time to complete" chain of `extract_by_xpaths`, as a function
of the primary and fallback locator texts: the primary wins when it
matches the duration pattern; otherwise the fallback is used when it
matches the pattern, and otherwise `time_txt_fallback or
"Flexible schedule"` (Python truthiness) is used; a final
`clean_text(time_txt) if time_txt else "Flexible schedule"` step
follows.  (`extract_duration_from_page` exists in the source but is
never invoked on this path.) -/
def time_resolve (p fb : String) : String :=
  let t :=
    if is_duration p then p
    else if is_duration fb then fb
    else if fb ≠ "" then fb else "Flexible schedule"
  if t ≠ "" then clean_text t else "Flexible schedule"

/-! ### Description candidate scoring (`extract_description`) -/

/-- ASCII apostrophe (written by code point to keep source literals
exact). -/
def apChar : Char := Char.ofNat 39

/-- The literal members of `MARKETING_PHRASES`, lower-cased for the
case-insensitive `re.search`. -/
def MARKETING_LITERALS : List (List Char) :=
  ["build your subject-matter expertise".data,
   ("when you enroll in this course, you" ++ String.singleton apChar ++
     "ll also be enrolled").data,
   "learn new concepts from industry experts".data,
   "gain a foundational understanding".data,
   "develop job-relevant skills".data,
   "earn a shareable career certificate".data]

/-- Prefix of the one non-literal marketing pattern
`This course is part of the .* Specialization` (lower-cased). -/
def specPre : List Char := "this course is part of the ".data

/-- Suffix of the same pattern. -/
def specPost : List Char := " specialization".data

/-- `.*` does not cross a newline. -/
def noNewlineBetween (cs : List Char) (a b : Nat) : Bool :=
  ((cs.drop a).take (b - a)).all (fun c => !(c == '\n'))

/-- Search for `this course is part of the .* specialization` in a
lower-cased text. -/
def specializationMatch (cs : List Char) : Bool :=
  (List.range (cs.length + 1)).any fun i =>
    matchAt cs specPre i &&
      ((List.range (cs.length + 1)).any fun j =>
        decide (i + specPre.length ≤ j) && matchAt cs specPost j &&
          noNewlineBetween cs (i + specPre.length) j)

/-- Number of `MARKETING_PHRASES` patterns that match somewhere in `s`
(`sum(bool(re.search(pat, text, re.I)) for pat in MARKETING_PHRASES)`). -/
def marketingCount (s : String) : Nat :=
  let low := lowerL s.data
  (MARKETING_LITERALS.filter (fun pat => (findSubstring low pat).isSome)).length
    + (if specializationMatch low then 1 else 0)

/-- The candidate score of `extract_description`: length minus 100 per
matched marketing pattern. -/
def descScore (s : String) : Int :=
  (s.length : Int) - 100 * (marketingCount s : Int)

/-- `max(candidates, key=lambda c: score(c[1]))`: Python `max` keeps the
earliest element on ties, so the accumulator is replaced only on a
strictly greater score. -/
def pick_best : List (String × String) → Option (String × String)
  | [] => none
  | c :: cs =>
    some (cs.foldl (fun b x => if descScore x.2 > descScore b.2 then x else b) c)

/-! ### Provider resolution (`extract_offered_by`) -/

/-- Pattern of the attribution regex (lower-cased). -/
def OFFERED_BY_PAT : List Char := "offered by".data

/-- Pattern of the `Learn more` removal (lower-cased). -/
def LEARN_MORE_PAT : List Char := "learn more".data

/-- `re.sub(r"\bOffered by\b.*", "", t)`: the input has been cleaned
(no newline survives `clean_text`), so `.*` runs to the end of the
string and the substitution deletes everything from the first boundary
occurrence on. -/
def attributionCut (cs : List Char) : List Char :=
  match findBoundaryPat (lowerL cs) OFFERED_BY_PAT with
  | some i => cs.take i
  | none => cs

/-- `re.sub` scanning for non-overlapping matches left to right over
the original text: keep the segment before each match, resume after it. -/
def removePatGo (cs pat : List Char) : Nat → Nat → List Char
  | start, 0 => cs.drop start
  | start, fuel + 1 =>
    match scanIdx (fun i => boundaryMatchAt (lowerL cs) pat i) start
        (cs.length + 1 - start) with
    | none => cs.drop start
    | some i =>
      (cs.drop start).take (i - start) ++ removePatGo cs pat (i + pat.length) fuel

/-- `re.sub(r"\bLearn more\b", "", t)`. -/
def removeLearnMore (cs : List Char) : List Char :=
  removePatGo cs LEARN_MORE_PAT 0 (cs.length + 1)

/-- First piece of `re.split(r"[\.•\n]+", t)`: the prefix before the
first delimiter character. -/
def dotSplitFirst (cs : List Char) : List Char :=
  cs.takeWhile (fun c => !(c == '.' || c == '•' || c == '\n'))

/-- A match of `\s+(has|is)\s+` starting at position `i` (the split
regex of the marketing-clause cut; case-sensitive, as in the source). -/
def hasIsSplitAt (cs : List Char) (i : Nat) : Bool :=
  match cs.get? i with
  | none => false
  | some c =>
    pySpace c &&
      (let j := i + runLen pySpace cs i
       (matchAt cs "has".data j &&
          (match cs.get? (j + 3) with | some d => pySpace d | none => false))
       || (matchAt cs "is".data j &&
             (match cs.get? (j + 2) with | some d => pySpace d | none => false)))

/-- First piece of `re.split(r"\s+(has|is)\s+", t)`. -/
def hasIsCut (cs : List Char) : List Char :=
  match scanIdx (fun i => hasIsSplitAt cs i) 0 (cs.length + 1) with
  | some i => cs.take i
  | none => cs

/-- `SHORT_MAP.get(t, t)`. -/
def SHORT_MAP (t : String) : String :=
  if t == "CalArts" then "California Institute of the Arts"
  else if t == "MoMA" then "The Museum of Modern Art"
  else t

/-- `extract_offered_by`: clean, strip the attribution phrase (and all
that follows it), drop `Learn more`, truncate at the first
sentence/bullet/newline boundary, truncate at a trailing
`has`/`is` marketing clause, and map known short forms. -/
def extract_offered_by (raw : String) : String :=
  let t := clean_text raw
  if t == "" then ""
  else
    let t1 := attributionCut t.data
    let t2 := removeLearnMore t1
    let t3 := pyStripL (dotSplitFirst t2)
    let t4 := pyStripL (hasIsCut t3)
    SHORT_MAP (String.mk t4)

/-- The assignment `offered_by = extract_offered_by(offered_by_raw) if
offered_by_raw else "Coursera"` of `extract_by_xpaths`. -/
def resolve_offered_by (raw : String) : String :=
  if raw ≠ "" then extract_offered_by raw else "Coursera"

/-! ### Record assembly and the sheet sink -/

/-- A cell of the assembled record: string, Python float (an exact
decimal) or Python int. -/
inductive CellVal
  | str (v : String)
  | num (q : DecVal)
  | int (n : Int)
deriving DecidableEq

/-- The per-value conversion of `append_rows`: an empty string becomes
`"N/A"` at sheet-append time. -/
def sheet_cell (v : CellVal) : CellVal :=
  if v = .str "" then .str "N/A" else v

/-- The fixed column schema. -/
def COLUMNS : List String :=
  ["course_url", "title", "course_category", "course_subcategory",
   "rating", "language", "Time to complete", "num_modules",
   "skill_acquire", "description", "experience_required",
   "num_registered", "course content", "offered_by"]

/-- The field values reaching the `row = { ... }` literal of
`extract_by_xpaths`: `title`, `course_category` and
`course_subcategory` are still raw (their `if ... else "N/A"` defaults
sit inside the literal); every other value was already defaulted
upstream. -/
structure RowInputs where
  course_url : String
  title : String
  course_category : String
  course_subcategory : String
  rating : CellVal
  language : String
  time_to_complete : String
  num_modules : CellVal
  skill_acquire : String
  description : String
  experience_required : String
  num_registered : CellVal
  course_content : String
  offered_by : String

/-- The `row` dictionary literal of `extract_by_xpaths`. -/
def assemble_row (v : RowInputs) : List (String × CellVal) :=
  [("course_url", .str v.course_url),
   ("title", .str (if v.title ≠ "" then v.title else "N/A")),
   ("course_category",
     .str (if v.course_category ≠ "" then v.course_category else "N/A")),
   ("course_subcategory",
     .str (if v.course_subcategory ≠ "" then v.course_subcategory else "N/A")),
   ("rating", v.rating),
   ("language", .str v.language),
   ("Time to complete", .str v.time_to_complete),
   ("num_modules", v.num_modules),
   ("skill_acquire", .str v.skill_acquire),
   ("description", .str v.description),
   ("experience_required", .str v.experience_required),
   ("num_registered", v.num_registered),
   ("course content", .str v.course_content),
   ("offered_by", .str v.offered_by)]

/-! ### Fetch retry loop and the per-URL main loop -/

/-- `MAX_RETRIES = 3`. -/
def MAX_RETRIES : Nat := 3

/-- `REQUEST_DELAY_SEC = 2.0`. -/
def REQUEST_DELAY_SEC : DecVal := ⟨2, 0⟩

/-- What one `session.get` attempt does: returns a status code, or
raises `requests.RequestException`. -/
inductive FetchOutcome
  | resp (status : Nat)
  | exn
deriving DecidableEq

/-- Did the attempt return a 2xx response? -/
def isSuccessOutcome : FetchOutcome → Bool
  | .resp s => decide (200 ≤ s) && decide (s < 300)
  | .exn => false

/-- Result of `fetch_url`: the returned status (`none` models the final
`RuntimeError`), the sleeps performed (in order), and the number of
attempts made. -/
structure FetchResult where
  result : Option Nat
  sleeps : List DecVal
  attempts : Nat

/-- The `for attempt in range(1, MAX_RETRIES + 1)` loop of `fetch_url`:
2xx returns; 403/429 sleeps `REQUEST_DELAY_SEC * attempt`; any other
status sleeps `REQUEST_DELAY_SEC`; a request exception sleeps
`REQUEST_DELAY_SEC * attempt`; exhaustion raises. -/
def fetch_go (env : Nat → FetchOutcome) : Nat → Nat → List DecVal → FetchResult
  | 0, attempt, sleeps => ⟨none, sleeps.reverse, attempt - 1⟩
  | fuel + 1, attempt, sleeps =>
    match env attempt with
    | .resp s =>
      if 200 ≤ s ∧ s < 300 then ⟨some s, sleeps.reverse, attempt⟩
      else if s = 403 ∨ s = 429 then
        fetch_go env fuel (attempt + 1) (REQUEST_DELAY_SEC.scale attempt :: sleeps)
      else fetch_go env fuel (attempt + 1) (REQUEST_DELAY_SEC :: sleeps)
    | .exn =>
      fetch_go env fuel (attempt + 1) (REQUEST_DELAY_SEC.scale attempt :: sleeps)

/-- `fetch_url`: run the attempt loop from attempt 1. -/
def fetch_url (env : Nat → FetchOutcome) : FetchResult :=
  fetch_go env MAX_RETRIES 1 []

/-- The sleep the source performs after a failed attempt. -/
def delayOf (attempt : Nat) : FetchOutcome → DecVal
  | .resp s =>
    if s = 403 ∨ s = 429 then REQUEST_DELAY_SEC.scale attempt
    else REQUEST_DELAY_SEC
  | .exn => REQUEST_DELAY_SEC.scale attempt

/-- The per-URL loop of `main`: each URL is fetched and extracted inside
a `try`; an exception is logged (the URL joins the failure log) and the
loop continues with the next URL. -/
def main_loop {α : Type} (run : String → Except String α) :
    List String → List α × List String
  | [] => ([], [])
  | u :: us =>
    let rest := main_loop run us
    match run u with
    | .ok r => (r :: rest.1, rest.2)
    | .error _ => (rest.1, u :: rest.2)

-- Sanity examples (concrete evaluation of the embedded code).
example : (append_links ["https://b", "https://a"] {"https://a"}).written
    = ["https://b"] := by decide
example : (append_links ["https://b", "https://a"] {"https://a"}).count
    = 1 := by decide
example : is_duration "4 weeks" = true := by decide
example : is_duration "4.8 out of 5" = false := by decide
example : is_duration "Beginner level" = false := by decide
example : clean_text "  a \t b  " = "a b" := by decide
example : rating_from_text "4.8 out of 5" = .num ⟨48, 1⟩ := by decide
example : rating_from_text "4 weeks" = .na := by decide
example : first_number "Enrolled: 1,200 learners" = some ⟨1200, 0⟩ := by decide
example : time_resolve "" "Beginner level" = "Beginner level" := by decide
example : time_resolve "4 weeks" "x" = "4 weeks" := by decide
example : time_resolve "" "" = "Flexible schedule" := by decide
example : extract_offered_by "Offered by Stanford University" = "" := by decide
example : extract_offered_by "Stanford University has over 100 courses"
    = "Stanford University" := by decide
example : extract_offered_by "Google. Learn more" = "Google" := by decide
example : extract_offered_by "CalArts" = "California Institute of the Arts" := by
  decide
example : (fetch_url (fun _ => .exn)).sleeps = [⟨2, 0⟩, ⟨4, 0⟩, ⟨6, 0⟩] := by
  decide

/-! ## Helper lemmas -/

theorem scanIdx_at_zero (p : Nat → Bool) (n : Nat) (h : p 0 = true) :
    scanIdx p 0 (n + 1) = some 0 := by
  simp [scanIdx, h]

theorem is_duration_ne_empty {s : String} (h : is_duration s = true) :
    s ≠ "" := by
  intro he
  subst he
  exact absurd h (by decide)

theorem clean_text_flexible : clean_text "Flexible schedule" = "Flexible schedule" := by
  decide

/-- If the cleaned candidate starts with the attribution phrase (with a
word boundary after it), the attribution regex deletes everything and
the cleaner returns the empty string. -/
theorem extract_offered_by_attr_empty (raw : String)
    (h : boundaryMatchAt (lowerL (clean_text raw).data) OFFERED_BY_PAT 0 = true) :
    extract_offered_by raw = "" := by
  have hfind : findBoundaryPat (lowerL (clean_text raw).data) OFFERED_BY_PAT
      = some 0 := by
    unfold findBoundaryPat
    exact scanIdx_at_zero _ _ h
  have hcut : attributionCut (clean_text raw).data = [] := by
    unfold attributionCut
    rw [hfind]
    rfl
  unfold extract_offered_by
  by_cases ht : (clean_text raw == "") = true
  · simp [ht]
  · rw [if_neg ht]
    dsimp only
    rw [hcut]
    rfl

theorem foldl_best_keep (b : String × String) (l : List (String × String))
    (h : ∀ c ∈ l, descScore c.2 ≤ descScore b.2) :
    l.foldl (fun b x => if descScore x.2 > descScore b.2 then x else b) b = b := by
  induction l with
  | nil => rfl
  | cons x xs ih =>
    have hx : descScore x.2 ≤ descScore b.2 := h x (List.mem_cons_self x xs)
    simp only [List.foldl_cons]
    rw [if_neg (by omega)]
    exact ih (fun c hc => h c (List.mem_cons_of_mem _ hc))

theorem fetch_go_bound (env : Nat → FetchOutcome) :
    ∀ fuel attempt sleeps,
      (fetch_go env fuel attempt sleeps).attempts ≤ attempt - 1 + fuel := by
  intro fuel
  induction fuel with
  | zero => intro attempt sleeps; simp [fetch_go]
  | succ f ih =>
    intro attempt sleeps
    unfold fetch_go
    cases henv : env attempt with
    | resp s =>
      dsimp only
      by_cases h2 : 200 ≤ s ∧ s < 300
      · rw [if_pos h2]
        show attempt ≤ attempt - 1 + (f + 1)
        omega
      · rw [if_neg h2]
        by_cases h3 : s = 403 ∨ s = 429
        · rw [if_pos h3]
          have := ih (attempt + 1) (REQUEST_DELAY_SEC.scale attempt :: sleeps)
          omega
        · rw [if_neg h3]
          have := ih (attempt + 1) (REQUEST_DELAY_SEC :: sleeps)
          omega
    | exn =>
      dsimp only
      have := ih (attempt + 1) (REQUEST_DELAY_SEC.scale attempt :: sleeps)
      omega

theorem fetch_go_exhaust (env : Nat → FetchOutcome) :
    ∀ fuel attempt sleeps,
      (fetch_go env fuel attempt sleeps).result = none →
      ∀ a, attempt ≤ a → a < attempt + fuel → isSuccessOutcome (env a) = false := by
  intro fuel
  induction fuel with
  | zero => intro attempt sleeps _ a h1 h2; omega
  | succ f ih =>
    intro attempt sleeps hres a h1 h2
    unfold fetch_go at hres
    cases henv : env attempt with
    | resp s =>
      rw [henv] at hres
      dsimp only at hres
      by_cases h2xx : 200 ≤ s ∧ s < 300
      · rw [if_pos h2xx] at hres
        exact absurd hres (by simp)
      · rw [if_neg h2xx] at hres
        by_cases ha : a = attempt
        · subst ha
          cases hb : isSuccessOutcome (env a)
          · rfl
          · rw [henv] at hb
            simp [isSuccessOutcome] at hb
            exact absurd hb h2xx
        · by_cases h3 : s = 403 ∨ s = 429
          · rw [if_pos h3] at hres
            exact ih (attempt + 1) _ hres a (by omega) (by omega)
          · rw [if_neg h3] at hres
            exact ih (attempt + 1) _ hres a (by omega) (by omega)
    | exn =>
      rw [henv] at hres
      dsimp only at hres
      by_cases ha : a = attempt
      · subst ha
        rw [henv]
        rfl
      · exact ih (attempt + 1) _ hres a (by omega) (by omega)

theorem fetch_go_sleeps (env : Nat → FetchOutcome) :
    ∀ fuel attempt sleeps,
      (fetch_go env fuel attempt sleeps).result = none →
      (fetch_go env fuel attempt sleeps).sleeps
        = sleeps.reverse ++ (List.range' attempt fuel).map (fun a => delayOf a (env a)) := by
  intro fuel
  induction fuel with
  | zero => intro attempt sleeps _; simp [fetch_go]
  | succ f ih =>
    intro attempt sleeps hres
    unfold fetch_go at hres ⊢
    cases henv : env attempt with
    | resp s =>
      rw [henv] at hres
      dsimp only at hres ⊢
      by_cases h2xx : 200 ≤ s ∧ s < 300
      · rw [if_pos h2xx] at hres
        exact absurd hres (by simp)
      · rw [if_neg h2xx] at hres ⊢
        by_cases h3 : s = 403 ∨ s = 429
        · rw [if_pos h3] at hres ⊢
          rw [ih (attempt + 1) _ hres]
          simp [List.range'_succ, delayOf, henv, h3]
        · rw [if_neg h3] at hres ⊢
          rw [ih (attempt + 1) _ hres]
          simp [List.range'_succ, delayOf, henv, h3]
    | exn =>
      rw [henv] at hres
      dsimp only at hres ⊢
      rw [ih (attempt + 1) _ hres]
      simp [List.range'_succ, delayOf, henv]

theorem main_loop_spec {α : Type} (run : String → Except String α) :
    ∀ urls, main_loop run urls
      = (urls.filterMap (fun u => (run u).toOption),
         urls.filter (fun u => !(run u).toOption.isSome)) := by
  intro urls
  induction urls with
  | nil => rfl
  | cons u us ih =>
    unfold main_loop
    rw [ih]
    cases hr : run u <;> simp [List.filterMap_cons, List.filter_cons, hr, Except.toOption]

theorem mem_insertSorted (x a : String) :
    ∀ l : List String, a ∈ insertSorted x l ↔ a = x ∨ a ∈ l := by
  intro l
  induction l with
  | nil => simp [insertSorted]
  | cons y ys ih =>
    unfold insertSorted
    by_cases h : strLe x y = true
    · simp [h]
    · rw [if_neg h]
      simp only [List.mem_cons, ih]
      tauto

theorem mem_sortLinks (a : String) :
    ∀ l : List String, a ∈ sortLinks l ↔ a ∈ l := by
  intro l
  induction l with
  | nil => simp [sortLinks]
  | cons x xs ih =>
    unfold sortLinks
    rw [mem_insertSorted, ih, List.mem_cons]

theorem toFinset_sortLinks (l : List String) :
    (sortLinks l).toFinset = l.toFinset := by
  ext a
  simp [List.mem_toFinset, mem_sortLinks]

theorem append_links_go_already (ls : List String) :
    ∀ aw, (append_links_go ls aw).already = aw ∪ ls.toFinset := by
  induction ls with
  | nil => intro aw; simp [append_links_go]
  | cons l ls ih =>
    intro aw
    unfold append_links_go
    by_cases h : l ∈ aw
    · rw [if_pos h, ih aw, List.toFinset_cons, Finset.union_insert,
        Finset.insert_eq_self.mpr (Finset.mem_union_left _ h)]
    · rw [if_neg h]
      dsimp only
      rw [ih (insert l aw), List.toFinset_cons, Finset.insert_union,
        Finset.union_insert]

theorem append_links_go_count (ls : List String) :
    ∀ aw, (append_links_go ls aw).count
      = (append_links_go ls aw).written.length := by
  induction ls with
  | nil => intro aw; rfl
  | cons l ls ih =>
    intro aw
    unfold append_links_go
    by_cases h : l ∈ aw
    · rw [if_pos h]; exact ih aw
    · rw [if_neg h]
      dsimp only
      simp [ih (insert l aw)]

theorem append_links_go_written_nodup (ls : List String) :
    ∀ aw, (append_links_go ls aw).written.Nodup
      ∧ ∀ x ∈ (append_links_go ls aw).written, x ∉ aw := by
  induction ls with
  | nil => intro aw; refine ⟨List.nodup_nil, by simp [append_links_go]⟩
  | cons l ls ih =>
    intro aw
    unfold append_links_go
    by_cases h : l ∈ aw
    · rw [if_pos h]
      exact ih aw
    · rw [if_neg h]
      dsimp only
      obtain ⟨hnd, hnotin⟩ := ih (insert l aw)
      constructor
      · refine List.nodup_cons.mpr ⟨?_, hnd⟩
        intro hmem
        exact (hnotin l hmem) (Finset.mem_insert_self l aw)
      · intro x hx
        rcases List.mem_cons.mp hx with rfl | hx2
        · exact h
        · intro hxa
          exact (hnotin x hx2) (Finset.mem_insert_of_mem hxa)

theorem append_links_go_written_toFinset (ls : List String) :
    ∀ aw, (append_links_go ls aw).written.toFinset = ls.toFinset \ aw := by
  induction ls with
  | nil => intro aw; simp [append_links_go]
  | cons l ls ih =>
    intro aw
    unfold append_links_go
    by_cases h : l ∈ aw
    · rw [if_pos h, ih aw]
      ext x
      simp only [Finset.mem_sdiff, List.toFinset_cons, Finset.mem_insert]
      constructor
      · rintro ⟨h1, h2⟩; exact ⟨Or.inr h1, h2⟩
      · rintro ⟨h1 | h1, h2⟩
        · exact absurd (h1 ▸ h) h2
        · exact ⟨h1, h2⟩
    · rw [if_neg h]
      dsimp only
      rw [List.toFinset_cons, ih (insert l aw)]
      ext x
      simp only [List.toFinset_cons, Finset.mem_insert, Finset.mem_sdiff]
      by_cases hx : x = l
      · subst hx; simp [h]
      · simp only [hx, false_or]

/-- Full characterization of one `append_links` call: it writes exactly
the links not already in the set (each once), returns the number of
lines written, and adds the whole link set to the in-memory set. -/
theorem append_links_spec (links : List String) (aw : Finset String) :
    (append_links links aw).written.toFinset = links.toFinset \ aw
    ∧ (append_links links aw).written.Nodup
    ∧ (append_links links aw).count = (append_links links aw).written.length
    ∧ (append_links links aw).already = aw ∪ links.toFinset := by
  unfold append_links
  refine ⟨?_, (append_links_go_written_nodup _ aw).1,
    append_links_go_count _ aw, ?_⟩
  · rw [append_links_go_written_toFinset, toFinset_sortLinks]
  · rw [append_links_go_already, toFinset_sortLinks]

theorem mem_pagesUnion (x : String) :
    ∀ pages : List (List String), x ∈ pagesUnion pages ↔ ∃ p ∈ pages, x ∈ p := by
  intro pages
  induction pages with
  | nil => simp [pagesUnion]
  | cons p rest ih =>
    unfold pagesUnion
    simp [Finset.mem_union, ih, List.mem_toFinset]

theorem load_append (file w : List String) (hw : ∀ l ∈ w, goodLink l) :
    load_already_written (file ++ w)
      = load_already_written file ∪ w.toFinset := by
  unfold load_already_written
  rw [List.map_append, List.filter_append, List.toFinset_append]
  have hmap : w.map pyStrip = w := by
    rw [List.map_congr_left (fun a ha => (hw a ha).2)]
    simp
  rw [hmap]
  have hfil : w.filter (fun l => pyStartsWith l "http") = w :=
    List.filter_eq_self.mpr (fun a ha => (hw a ha).1)
  rw [hfil]

theorem mem_load_of_mem_file (file : List String) (l : String)
    (hg : goodLink l) (hm : l ∈ file) : l ∈ load_already_written file := by
  unfold load_already_written
  rw [List.mem_toFinset, List.mem_filter]
  exact ⟨List.mem_map.mpr ⟨l, hm, hg.2⟩, hg.1⟩

/-- Master invariant of a harvester run: starting from a set that equals
the loaded file, the run appends a duplicate-free block holding exactly
the links not yet stored, counts its length, ends with the set equal to
the re-loaded final file, and the set has absorbed every page link. -/
theorem run_go_spec :
    ∀ (pages : List (List String)) (file : List String) (aw : Finset String)
      (n : Nat),
      aw = load_already_written file →
      (∀ p ∈ pages, ∀ l ∈ p, goodLink l) →
      ∃ w : List String,
        (run_go pages file aw n).1 = file ++ w
        ∧ w.Nodup
        ∧ w.toFinset = pagesUnion pages \ aw
        ∧ (run_go pages file aw n).2.1 = aw ∪ pagesUnion pages
        ∧ (run_go pages file aw n).2.2 = n + w.length
        ∧ (run_go pages file aw n).2.1
            = load_already_written (run_go pages file aw n).1 := by
  intro pages
  induction pages with
  | nil =>
    intro file aw n hload hgood
    refine ⟨[], by simp [run_go], List.nodup_nil, by simp [pagesUnion],
      by simp [run_go, pagesUnion], by simp [run_go], ?_⟩
    simpa [run_go] using hload
  | cons page rest ih =>
    intro file aw n hload hgood
    obtain ⟨hwf, hwn, hwc, hwa⟩ := append_links_spec page aw
    set r := append_links page aw with hr
    have hgoodw : ∀ l ∈ r.written, goodLink l := by
      intro l hl
      have : l ∈ page.toFinset \ aw := hwf ▸ List.mem_toFinset.mpr hl
      exact hgood page (List.mem_cons_self _ _) l
        (List.mem_toFinset.mp (Finset.mem_sdiff.mp this).1)
    have hload2 : r.already = load_already_written (file ++ r.written) := by
      rw [load_append file r.written hgoodw, ← hload, hwf, hwa,
        Finset.union_sdiff_self_eq_union]
    obtain ⟨w2, h1, h2, h3, h4, h5, h6⟩ :=
      ih (file ++ r.written) r.already (n + r.count) hload2
        (fun p hp => hgood p (List.mem_cons_of_mem _ hp))
    refine ⟨r.written ++ w2, ?_, ?_, ?_, ?_, ?_, ?_⟩
    · show (run_go rest (file ++ r.written) r.already (n + r.count)).1 = _
      rw [h1, List.append_assoc]
    · refine List.Nodup.append hwn h2 ?_
      intro a ha hb
      have haset : a ∈ page.toFinset \ aw := hwf ▸ List.mem_toFinset.mpr ha
      have hbset : a ∈ pagesUnion rest \ r.already :=
        h3 ▸ List.mem_toFinset.mpr hb
      have : a ∈ r.already := by
        rw [hwa]
        exact Finset.mem_union_right _ (Finset.mem_sdiff.mp haset).1
      exact (Finset.mem_sdiff.mp hbset).2 this
    · rw [List.toFinset_append, hwf, h3, hwa]
      ext x
      simp only [Finset.mem_union, Finset.mem_sdiff, pagesUnion]
      by_cases hx : x ∈ aw
      · simp [hx]
      · simp [hx]
        tauto
    · show (run_go rest (file ++ r.written) r.already (n + r.count)).2.1 = _
      rw [h4, hwa, pagesUnion, Finset.union_assoc]
    · show (run_go rest (file ++ r.written) r.already (n + r.count)).2.2 = _
      rw [h5, hwc, List.length_append]
      omega
    · show (run_go rest (file ++ r.written) r.already (n + r.count)).2.1 = _
      rw [h6, h1]
      rw [show (run_go (page :: rest) file aw n).1 = file ++ r.written ++ w2
        from h1]

theorem scrape_go_visited_le (env : PageEnv) :
    ∀ fuel pageIndex aw file total,
      (scrape_go env fuel pageIndex aw file total).pagesVisited
        ≤ pageIndex - 1 + fuel := by
  intro fuel
  induction fuel with
  | zero => intro pageIndex aw file total; simp [scrape_go]
  | succ f ih =>
    intro pageIndex aw file total
    unfold scrape_go
    dsimp only
    by_cases h1 : env.nextFound pageIndex = false
    · rw [if_pos h1]
      show pageIndex ≤ pageIndex - 1 + (f + 1)
      omega
    · rw [if_neg h1]
      by_cases h2 : env.clickOk pageIndex = false
      · rw [if_pos h2]
        show pageIndex ≤ pageIndex - 1 + (f + 1)
        omega
      · rw [if_neg h2]
        have := ih (pageIndex + 1)
          (append_links (env.links pageIndex) aw).already
          (file ++ (append_links (env.links pageIndex) aw).written)
          (total + (append_links (env.links pageIndex) aw).count)
        omega

theorem scrape_go_all_next (env : PageEnv)
    (hn : ∀ k, env.nextFound k = true) (hc : ∀ k, env.clickOk k = true) :
    ∀ fuel pageIndex aw file total, 1 ≤ pageIndex →
      (scrape_go env fuel pageIndex aw file total).reason = .maxPages
      ∧ (scrape_go env fuel pageIndex aw file total).pagesVisited
          = pageIndex - 1 + fuel := by
  intro fuel
  induction fuel with
  | zero =>
    intro pageIndex aw file total h1
    refine ⟨rfl, ?_⟩
    show pageIndex - 1 = pageIndex - 1 + 0
    omega
  | succ f ih =>
    intro pageIndex aw file total h1
    unfold scrape_go
    dsimp only
    rw [if_neg (by simp [hn]), if_neg (by simp [hc])]
    obtain ⟨ha, hb⟩ := ih (pageIndex + 1)
      (append_links (env.links pageIndex) aw).already
      (file ++ (append_links (env.links pageIndex) aw).written)
      (total + (append_links (env.links pageIndex) aw).count)
      (by omega)
    refine ⟨ha, ?_⟩
    rw [hb]
    omega

theorem scrape_go_file_ext (env : PageEnv) :
    ∀ fuel pageIndex aw file total,
      ∃ w, (scrape_go env fuel pageIndex aw file total).file = file ++ w
        ∧ (scrape_go env fuel pageIndex aw file total).totalNew
            = total + w.length := by
  intro fuel
  induction fuel with
  | zero =>
    intro pageIndex aw file total
    exact ⟨[], by simp [scrape_go], by simp [scrape_go]⟩
  | succ f ih =>
    intro pageIndex aw file total
    obtain ⟨hwf, hwn, hwc, hwa⟩ := append_links_spec (env.links pageIndex) aw
    unfold scrape_go
    dsimp only
    by_cases h1 : env.nextFound pageIndex = false
    · rw [if_pos h1]
      refine ⟨(append_links (env.links pageIndex) aw).written, rfl, ?_⟩
      show total + (append_links (env.links pageIndex) aw).count = _
      rw [hwc]
    · rw [if_neg h1]
      by_cases h2 : env.clickOk pageIndex = false
      · rw [if_pos h2]
        refine ⟨(append_links (env.links pageIndex) aw).written, rfl, ?_⟩
        show total + (append_links (env.links pageIndex) aw).count = _
        rw [hwc]
      · rw [if_neg h2]
        obtain ⟨w2, hw1, hw2⟩ := ih (pageIndex + 1)
          (append_links (env.links pageIndex) aw).already
          (file ++ (append_links (env.links pageIndex) aw).written)
          (total + (append_links (env.links pageIndex) aw).count)
        refine ⟨(append_links (env.links pageIndex) aw).written ++ w2, ?_, ?_⟩
        · rw [hw1, List.append_assoc]
        · rw [hw2, hwc, List.length_append]
          omega

theorem scrape_go_already_mono (env : PageEnv) :
    ∀ fuel pageIndex aw file total,
      aw ⊆ (scrape_go env fuel pageIndex aw file total).already := by
  intro fuel
  induction fuel with
  | zero =>
    intro pageIndex aw file total
    show aw ⊆ aw
    exact Finset.Subset.refl aw
  | succ f ih =>
    intro pageIndex aw file total
    obtain ⟨hwf, hwn, hwc, hwa⟩ := append_links_spec (env.links pageIndex) aw
    have hsub : aw ⊆ (append_links (env.links pageIndex) aw).already := by
      rw [hwa]
      intro x hx
      exact Finset.mem_union_left _ hx
    unfold scrape_go
    dsimp only
    by_cases h1 : env.nextFound pageIndex = false
    · rw [if_pos h1]
      exact hsub
    · rw [if_neg h1]
      by_cases h2 : env.clickOk pageIndex = false
      · rw [if_pos h2]
        exact hsub
      · rw [if_neg h2]
        exact Finset.Subset.trans hsub (ih (pageIndex + 1) _ _ _)

theorem scrape_go_links_kept (env : PageEnv) :
    ∀ fuel pageIndex aw file total, 1 ≤ pageIndex →
      ∀ k l, pageIndex ≤ k →
        k ≤ (scrape_go env fuel pageIndex aw file total).pagesVisited →
        l ∈ env.links k →
        l ∈ (scrape_go env fuel pageIndex aw file total).already
        ∧ (l ∈ aw ∨ l ∈ (scrape_go env fuel pageIndex aw file total).file) := by
  intro fuel
  induction fuel with
  | zero =>
    intro pageIndex aw file total hp k l hk1 hk2 _
    have hv : (scrape_go env 0 pageIndex aw file total).pagesVisited
        = pageIndex - 1 := rfl
    rw [hv] at hk2
    omega
  | succ f ih =>
    intro pageIndex aw file total hp k l hk1 hk2 hl
    obtain ⟨hwf, hwn, hwc, hwa⟩ := append_links_spec (env.links pageIndex) aw
    have hmem_already : l ∈ env.links pageIndex →
        l ∈ (append_links (env.links pageIndex) aw).already := by
      intro hlp
      rw [hwa]
      exact Finset.mem_union_right _ (List.mem_toFinset.mpr hlp)
    have hmem_written : l ∈ env.links pageIndex → l ∉ aw →
        l ∈ (append_links (env.links pageIndex) aw).written := by
      intro hlp hna
      refine List.mem_toFinset.mp ?_
      rw [hwf]
      exact Finset.mem_sdiff.mpr ⟨List.mem_toFinset.mpr hlp, hna⟩
    unfold scrape_go at hk2 ⊢
    dsimp only at hk2 ⊢
    by_cases h1 : env.nextFound pageIndex = false
    · rw [if_pos h1] at hk2 ⊢
      dsimp only at hk2 ⊢
      have hk : k = pageIndex := by omega
      subst hk
      refine ⟨hmem_already hl, ?_⟩
      by_cases hna : l ∈ aw
      · exact Or.inl hna
      · exact Or.inr (List.mem_append.mpr (Or.inr (hmem_written hl hna)))
    · rw [if_neg h1] at hk2 ⊢
      by_cases h2 : env.clickOk pageIndex = false
      · rw [if_pos h2] at hk2 ⊢
        dsimp only at hk2 ⊢
        have hk : k = pageIndex := by omega
        subst hk
        refine ⟨hmem_already hl, ?_⟩
        by_cases hna : l ∈ aw
        · exact Or.inl hna
        · exact Or.inr (List.mem_append.mpr (Or.inr (hmem_written hl hna)))
      · rw [if_neg h2] at hk2 ⊢
        obtain ⟨w2, hfe, _⟩ := scrape_go_file_ext env f (pageIndex + 1)
          (append_links (env.links pageIndex) aw).already
          (file ++ (append_links (env.links pageIndex) aw).written)
          (total + (append_links (env.links pageIndex) aw).count)
        by_cases hkp : k = pageIndex
        · subst hkp
          refine ⟨?_, ?_⟩
          · exact scrape_go_already_mono env f (k + 1) _ _ _ (hmem_already hl)
          · by_cases hna : l ∈ aw
            · exact Or.inl hna
            · refine Or.inr ?_
              rw [hfe]
              exact List.mem_append.mpr (Or.inl
                (List.mem_append.mpr (Or.inr (hmem_written hl hna))))
        · obtain ⟨ha, hor⟩ := ih (pageIndex + 1)
            (append_links (env.links pageIndex) aw).already
            (file ++ (append_links (env.links pageIndex) aw).written)
            (total + (append_links (env.links pageIndex) aw).count)
            (by omega) k l (by omega) hk2 hl
          refine ⟨ha, ?_⟩
          rcases hor with hor | hor
          · rw [hwa] at hor
            rcases Finset.mem_union.mp hor with hor | hor
            · exact Or.inl hor
            · by_cases hna : l ∈ aw
              · exact Or.inl hna
              · refine Or.inr ?_
                rw [hfe]
                exact List.mem_append.mpr (Or.inl (List.mem_append.mpr
                  (Or.inr (hmem_written (List.mem_toFinset.mp hor) hna))))
          · exact Or.inr hor

/-! ## Claim theorems -/

/-- C2 (amended): the resolved "Time to complete" value is the primary
locator text when it matches the duration pattern; otherwise it is the
secondary locator text whenever that text is non-empty — whether or not
it matches the duration pattern — and only when the secondary text is
empty does the sentinel "Flexible schedule" appear.  The whole-page
duration scan (`extract_duration_from_page`) is never invoked on this
path. -/
theorem c2_duration_chain_amended (p fb : String) :
    time_resolve p fb =
      if is_duration p = true then clean_text p
      else if fb ≠ "" then clean_text fb
      else "Flexible schedule" := by
  by_cases h1 : is_duration p = true
  · have hp : p ≠ "" := is_duration_ne_empty h1
    simp [time_resolve, h1, hp]
  · by_cases h2 : is_duration fb = true
    · have hfb : fb ≠ "" := is_duration_ne_empty h2
      simp [time_resolve, h1, h2, hfb]
    · by_cases h3 : fb = ""
      · subst h3
        simp [time_resolve, h1, h2, clean_text_flexible]
      · simp [time_resolve, h1, h2, h3]

/-- C2 counterexample: a secondary locator text that does not match the
duration pattern is nevertheless returned as the duration value — the
claim says it never is. -/
theorem c2_duration_counterexample :
    is_duration "Beginner level" = false
    ∧ time_resolve "" "Beginner level" = "Beginner level"
    ∧ ("Beginner level" : String) ≠ "Flexible schedule" := by
  refine ⟨by decide, by decide, by decide⟩

/-- C3 (amended): the description resolver picks the candidate with the
strictly greatest score (length minus a marketing penalty); the
first-listed primary-container candidate wins whenever its score is at
least every other score (ties go to the earliest strategy), but a
lower-priority candidate with a strictly greater score wins instead. -/
theorem c3_fallback_monotonicity_amended (t : String)
    (rest : List (String × String))
    (h : ∀ c ∈ rest, descScore c.2 ≤ descScore t) :
    pick_best (("container_div4", t) :: rest) = some ("container_div4", t) := by
  have hdef : pick_best (("container_div4", t) :: rest)
      = some (rest.foldl
          (fun b x => if descScore x.2 > descScore b.2 then x else b)
          ("container_div4", t)) := rfl
  rw [hdef, foldl_best_keep ("container_div4", t) rest h]

/-- C3 witness: a concrete candidate list where the primary container
candidate has the maximal score and hence wins. -/
theorem c3_fallback_monotonicity_witness :
    pick_best [("container_div4", "Machine learning fundamentals"),
               ("json_ld", "Short")]
      = some ("container_div4", "Machine learning fundamentals") :=
  c3_fallback_monotonicity_amended "Machine learning fundamentals"
    [("json_ld", "Short")] (by decide)

/-- C3 counterexample: the primary container yields a non-empty filtered
candidate, yet a lower-priority (JSON-LD) candidate with a longer text
is resolved instead — score-based selection, not fallback
monotonicity. -/
theorem c3_fallback_monotonicity_counterexample :
    pick_best [("container_div4", "Short"),
               ("json_ld", "A considerably longer course description text")]
      = some ("json_ld", "A considerably longer course description text")
    ∧ ("A considerably longer course description text" : String) ≠ "Short" := by
  refine ⟨by decide, by decide⟩

/-- C4: on a link-store file holding one URL, a blank line and the two
run annotation lines, `load_already_written` keeps only the URL, but
`load_urls` — which filters only blank and `#`-prefixed lines — returns
the two annotation lines as URL entries, contradicting the claim that
they are excluded. -/
theorem c4_annotation_lines_on_reload :
    load_already_written
        ["https://www.coursera.org/learn/ml", "",
         "---- RUN START [2025-01-01 10:00:00] ----",
         "---- RUN END   [2025-01-01 10:05:00] (new_written=3, unique_all=10, duration=300.00s) ----"]
      = {"https://www.coursera.org/learn/ml"}
    ∧ load_urls
        ["https://www.coursera.org/learn/ml", "",
         "---- RUN START [2025-01-01 10:00:00] ----",
         "---- RUN END   [2025-01-01 10:05:00] (new_written=3, unique_all=10, duration=300.00s) ----"]
      = ["https://www.coursera.org/learn/ml",
         "---- RUN START [2025-01-01 10:00:00] ----",
         "---- RUN END   [2025-01-01 10:05:00] (new_written=3, unique_all=10, duration=300.00s) ----"] := by
  refine ⟨by decide, by decide⟩

/-- C5: any rating locator text containing a duration unit resolves to
the sentinel (so "4 weeks" can never become the number 4.0), and
"4.8 out of 5" resolves to the number 4.8 (= 24/5). -/
theorem c5_rating_duration_disambiguation :
    (∀ s, is_duration s = true → rating_from_text s = .na)
    ∧ rating_from_text "4 weeks" = .na
    ∧ rating_from_text "4.8 out of 5" = .num ⟨48, 1⟩
    ∧ (⟨48, 1⟩ : DecVal).toQ = 24 / 5 := by
  refine ⟨?_, by decide, by decide, ?_⟩
  · intro s h
    simp [rating_from_text, h]
  · simp [DecVal.toQ]
    norm_num

/-- C5 witness: the duration guard applied at a concrete input. -/
theorem c5_rating_duration_disambiguation_witness :
    is_duration "10 hours" = true ∧ rating_from_text "10 hours" = .na :=
  ⟨by decide, c5_rating_duration_disambiguation.1 "10 hours" (by decide)⟩

/-- C6: the assembled row always carries exactly the 14 schema columns,
in order, each bound to a value (resolved or sentinel) — no key is ever
missing, whatever the resolved field values are. -/
theorem c6_record_completeness (v : RowInputs) :
    (assemble_row v).map Prod.fst = COLUMNS
    ∧ (COLUMNS.all (fun c => ((assemble_row v).lookup c).isSome)) = true :=
  ⟨rfl, rfl⟩

/-- C8 (amended): the provider cleaner truncates at a trailing
`has`/`is` marketing clause and at sentence/bullet boundaries, maps the
known abbreviations, and the sentinel "Coursera" is applied exactly when
the raw candidate is empty; when the raw candidate is non-empty the
cleaned text is returned even when it is the empty string (as happens
when the candidate starts with the attribution phrase, whose regex
deletes the phrase and everything after it). -/
theorem c8_provider_resolution_amended :
    (∀ raw, resolve_offered_by raw
        = if raw = "" then "Coursera" else extract_offered_by raw)
    ∧ extract_offered_by "Stanford University has over 100 courses"
        = "Stanford University"
    ∧ extract_offered_by "Google. Learn more" = "Google"
    ∧ extract_offered_by "CalArts" = "California Institute of the Arts"
    ∧ extract_offered_by "MoMA" = "The Museum of Modern Art"
    ∧ resolve_offered_by "" = "Coursera"
    ∧ resolve_offered_by "Offered by Stanford University" = "" := by
  refine ⟨?_, by decide, by decide, by decide, by decide, by decide, by decide⟩
  intro raw
  unfold resolve_offered_by
  by_cases h : raw = ""
  · simp [h]
  · simp [h]

/-- C8 counterexample: a non-empty provider candidate resolves to the
empty string, not to "Coursera" — the claim that the resolved value is
never empty fails. -/
theorem c8_provider_resolution_counterexample :
    ("Offered by Stanford University" : String) ≠ ""
    ∧ resolve_offered_by "Offered by Stanford University" = ""
    ∧ ("" : String) ≠ "Coursera" := by
  refine ⟨by decide, by decide, by decide⟩

/-- C9 (amended): `fetch_url` makes at most `MAX_RETRIES` attempts and
raises only after all attempts failed; the sleep after a failed attempt
is attempt-scaled for 403/429 responses and for request exceptions, and
fixed for other failing statuses (`delayOf`); and the main loop
processes every URL, isolating failures (failed URLs are logged, the
remaining URLs still produce their rows). -/
theorem c9_retry_and_isolation_amended :
    (∀ env, (fetch_url env).attempts ≤ MAX_RETRIES)
    ∧ (∀ env, (fetch_url env).result = none →
        ∀ a, 1 ≤ a → a ≤ MAX_RETRIES → isSuccessOutcome (env a) = false)
    ∧ (∀ env, (fetch_url env).result = none →
        (fetch_url env).sleeps
          = (List.range' 1 MAX_RETRIES).map (fun a => delayOf a (env a)))
    ∧ (∀ (α : Type) (run : String → Except String α) (urls : List String),
        (main_loop run urls).1 = urls.filterMap (fun u => (run u).toOption)
        ∧ (main_loop run urls).2
            = urls.filter (fun u => !(run u).toOption.isSome)) := by
  refine ⟨?_, ?_, ?_, ?_⟩
  · intro env
    have h := fetch_go_bound env MAX_RETRIES 1 []
    simpa [fetch_url] using h
  · intro env h a h1 h2
    refine fetch_go_exhaust env MAX_RETRIES 1 [] h a h1 ?_
    rw [Nat.add_comm]
    exact Nat.lt_succ_of_le h2
  · intro env h
    have hs := fetch_go_sleeps env MAX_RETRIES 1 [] h
    simpa [fetch_url] using hs
  · intro α run urls
    rw [main_loop_spec run urls]
    exact ⟨rfl, rfl⟩

/-- C9 witness: an always-500 endpoint exhausts the attempts, and
attempt 2 is certified unsuccessful by the theorem. -/
theorem c9_retry_and_isolation_witness :
    (fetch_url (fun _ => FetchOutcome.resp 500)).result = none
    ∧ isSuccessOutcome ((fun _ => FetchOutcome.resp 500) 2) = false :=
  ⟨by decide,
   c9_retry_and_isolation_amended.2.1 (fun _ => FetchOutcome.resp 500)
     (by decide) 2 (by decide) (by decide)⟩

/-- C9 counterexample: three request exceptions (a non-403/429 failure
mode) sleep the attempt-scaled delays 2, 4, 6 — not the fixed delay the
claim prescribes for every non-403/429 failure. -/
theorem c9_retry_counterexample :
    (fetch_url (fun _ => FetchOutcome.exn)).sleeps = [⟨2, 0⟩, ⟨4, 0⟩, ⟨6, 0⟩]
    ∧ (fetch_url (fun _ => FetchOutcome.exn)).sleeps
        ≠ [REQUEST_DELAY_SEC, REQUEST_DELAY_SEC, REQUEST_DELAY_SEC] := by
  refine ⟨by decide, by decide⟩

/-- C10: a candidate whose cleaned text begins with the attribution
phrase "Offered by" makes `extract_offered_by` return the empty string
(the regex deletes the phrase and all that follows), so the assembled
`offered_by` field can be empty — it becomes "N/A" only later, at
sheet-append time (`sheet_cell`). -/
theorem c10_offered_by_empty :
    (∀ raw, boundaryMatchAt (lowerL (clean_text raw).data) OFFERED_BY_PAT 0 = true →
      extract_offered_by raw = ""
      ∧ (raw ≠ "" → resolve_offered_by raw = ""))
    ∧ extract_offered_by "Offered by Stanford University" = ""
    ∧ sheet_cell (.str "") = .str "N/A" := by
  refine ⟨?_, by decide, by decide⟩
  intro raw h
  have he := extract_offered_by_attr_empty raw h
  exact ⟨he, fun hne => by simp [resolve_offered_by, hne, he]⟩

/-- C10 witness: the attribution-prefix case at a concrete input. -/
theorem c10_offered_by_empty_witness :
    boundaryMatchAt (lowerL (clean_text "Offered by MIT").data) OFFERED_BY_PAT 0
        = true
    ∧ extract_offered_by "Offered by MIT" = "" :=
  ⟨by decide, (c10_offered_by_empty.1 "Offered by MIT" (by decide)).1⟩

/-- C1: `append_links` writes exactly the links not yet in the
`already_written` set (each once), returns the count of written lines
and adds the links to the set; and a harvester run against stored state
(set loaded at run start) writes exactly the genuinely new links: the
total count equals their number, the file only grows, a second run over
the same pages writes nothing and leaves the file unchanged, and every
genuinely new URL ends up in the file exactly once. -/
theorem c1_dedup_idempotence :
    (∀ links aw,
      (append_links links aw).written.toFinset = links.toFinset \ aw
      ∧ (append_links links aw).written.Nodup
      ∧ (append_links links aw).count = (append_links links aw).written.length
      ∧ (append_links links aw).already = aw ∪ links.toFinset)
    ∧ (∀ file pages, goodPages pages →
        (harvester_run file pages).2
            = (pagesUnion pages \ load_already_written file).card
        ∧ (∃ w, (harvester_run file pages).1 = file ++ w)
        ∧ (harvester_run (harvester_run file pages).1 pages).2 = 0
        ∧ (harvester_run (harvester_run file pages).1 pages).1
            = (harvester_run file pages).1
        ∧ (∀ l, l ∈ pagesUnion pages → l ∉ load_already_written file →
            (harvester_run file pages).1.count l = 1)) := by
  refine ⟨fun links aw => append_links_spec links aw, ?_⟩
  intro file pages hgood
  obtain ⟨w, h1, h2, h3, h4, h5, h6⟩ :=
    run_go_spec pages file (load_already_written file) 0 rfl hgood
  have hfile1 : (harvester_run file pages).1
      = (run_go pages file (load_already_written file) 0).1 := rfl
  have hcnt1 : (harvester_run file pages).2
      = (run_go pages file (load_already_written file) 0).2.2 := rfl
  obtain ⟨w2, g1, g2, g3, g4, g5, g6⟩ :=
    run_go_spec pages (harvester_run file pages).1
      (load_already_written (harvester_run file pages).1) 0 rfl hgood
  have hload1 : load_already_written (harvester_run file pages).1
      = load_already_written file ∪ pagesUnion pages := by
    rw [hfile1, ← h6, h4]
  have hw2nil : w2 = [] := by
    rw [← List.toFinset_eq_empty_iff, g3, hload1,
      Finset.sdiff_eq_empty_iff_subset]
    intro x hx
    exact Finset.mem_union_right _ hx
  refine ⟨?_, ⟨w, by rw [hfile1, h1]⟩, ?_, ?_, ?_⟩
  · rw [hcnt1, h5, Nat.zero_add, ← List.toFinset_card_of_nodup h2, h3]
  · show (run_go pages (harvester_run file pages).1
        (load_already_written (harvester_run file pages).1) 0).2.2 = 0
    rw [g5, hw2nil]
    rfl
  · show (run_go pages (harvester_run file pages).1
        (load_already_written (harvester_run file pages).1) 0).1
      = (harvester_run file pages).1
    rw [g1, hw2nil, List.append_nil]
  · intro l hlu hlnot
    have hgoodl : goodLink l := by
      obtain ⟨p, hp, hlp⟩ := (mem_pagesUnion l pages).mp hlu
      exact hgood p hp l hlp
    have hlw : l ∈ w := by
      refine List.mem_toFinset.mp ?_
      rw [h3]
      exact Finset.mem_sdiff.mpr ⟨hlu, hlnot⟩
    have hlfile : l ∉ file := by
      intro hm
      exact hlnot (mem_load_of_mem_file file l hgoodl hm)
    rw [hfile1, h1, List.count_append, List.count_eq_zero.mpr hlfile,
      Nat.zero_add]
    exact List.count_eq_one_of_mem h2 hlw

/-- C1 witness: one stored URL, one page carrying that URL plus a new
one — the first run writes one line, the second run writes nothing and
leaves the store unchanged. -/
theorem c1_dedup_idempotence_witness :
    goodPages [["https://www.coursera.org/learn/a",
                "https://www.coursera.org/learn/b"]]
    ∧ (harvester_run ["https://www.coursera.org/learn/a"]
         [["https://www.coursera.org/learn/a",
           "https://www.coursera.org/learn/b"]]).2 = 1
    ∧ (harvester_run
         (harvester_run ["https://www.coursera.org/learn/a"]
           [["https://www.coursera.org/learn/a",
             "https://www.coursera.org/learn/b"]]).1
         [["https://www.coursera.org/learn/a",
           "https://www.coursera.org/learn/b"]]).2 = 0 := by
  have h := c1_dedup_idempotence.2 ["https://www.coursera.org/learn/a"]
    [["https://www.coursera.org/learn/a", "https://www.coursera.org/learn/b"]]
    (by decide)
  refine ⟨by decide, ?_, h.2.2.1⟩
  rw [h.1]
  decide

/-- C7: the page loop of `scrape_category` visits at most
`MAX_PAGES = 500` pages — with an eligible, clickable next control on
every page it still stops, with reason `maxPages`, after exactly 500
pages — and whichever exit ends the loop, the links of every visited
page are kept: the file only grows (by exactly the counted lines) and
every link seen on a visited page is in the final set and, unless it
was already stored, in the final file. -/
theorem c7_pagination_bound :
    (∀ env aw file, (scrape_category env aw file).pagesVisited ≤ MAX_PAGES)
    ∧ (∀ env aw file,
        (∀ k, env.nextFound k = true) → (∀ k, env.clickOk k = true) →
        (scrape_category env aw file).reason = .maxPages
        ∧ (scrape_category env aw file).pagesVisited = MAX_PAGES)
    ∧ (∀ env aw file,
        ∃ w, (scrape_category env aw file).file = file ++ w
          ∧ (scrape_category env aw file).totalNew = w.length)
    ∧ (∀ env aw file k l, 1 ≤ k →
        k ≤ (scrape_category env aw file).pagesVisited →
        l ∈ env.links k →
        l ∈ (scrape_category env aw file).already
        ∧ (l ∈ aw ∨ l ∈ (scrape_category env aw file).file)) := by
  refine ⟨?_, ?_, ?_, ?_⟩
  · intro env aw file
    have h := scrape_go_visited_le env MAX_PAGES 1 aw file 0
    simpa [scrape_category] using h
  · intro env aw file hn hc
    obtain ⟨h1, h2⟩ :=
      scrape_go_all_next env hn hc MAX_PAGES 1 aw file 0 (by omega)
    refine ⟨h1, ?_⟩
    rw [scrape_category, h2]
    omega
  · intro env aw file
    obtain ⟨w, hw1, hw2⟩ := scrape_go_file_ext env MAX_PAGES 1 aw file 0
    exact ⟨w, hw1, by rw [scrape_category, hw2, Nat.zero_add]⟩
  · intro env aw file k l hk1 hk2 hl
    exact scrape_go_links_kept env MAX_PAGES 1 aw file 0 (by omega) k l hk1
      hk2 hl

/-- C7 witness: a category whose next control never disables is stopped
by the safety cap after exactly 500 pages. -/
theorem c7_pagination_bound_witness :
    (scrape_category demoEnv ∅ []).reason = .maxPages
    ∧ (scrape_category demoEnv ∅ []).pagesVisited = MAX_PAGES := by
  have h2 := c7_pagination_bound.2.1 demoEnv ∅ [] (fun _ => rfl) (fun _ => rfl)
  exact ⟨h2.1, h2.2⟩
